import Mathlib

/-!
# Consumer offset subsystem of the sandglass broker

A shallow embedding of `broker/broker_offset.go` (mark, lastOffset,
GetMarkStateMessage, last, isAcknoweldged, partitionKey, generateClusterKey)
together with the protobuf wire encoding the two key functions rely on.
-/

namespace Sandglass

/-! ## Bytes, offsets and the protobuf wire format -/

/-- A byte string: Go `[]byte` and Go `string` alike, one number per byte. -/
abbrev Bytes := List Nat

/-- The type `sgproto.Offset` (a 16 byte sandflake id), read as the big-endian
number its bytes spell; byte-wise comparison of ids is comparison of these numbers. -/
abbrev Offset := Nat

/-- The constant `sgproto.Nil`: the all-zero id. -/
def Nil : Offset := 0

/-- Base-128 varint, least significant group first, continuation bit `0x80`.
The first argument bounds the number of groups; `x` itself always suffices. -/
def encodeVarintAux : Nat → Nat → Bytes
  | 0, x => [x]
  | fuel + 1, x =>
    if x < 128 then [x] else (x % 128 + 128) :: encodeVarintAux fuel (x / 128)

/-- The varint encoding of an unsigned number. -/
def encodeVarint (x : Nat) : Bytes := encodeVarintAux x x

/-- The `w` low-order bytes of `x`, most significant first. -/
def bigEndian : Nat → Nat → Bytes
  | 0, _ => []
  | w + 1, x => (x / 256 ^ w % 256) :: bigEndian w x

/-- The 16 bytes of an offset. -/
def offsetBytes (o : Offset) : Bytes := bigEndian 16 o

/-- One record of the protobuf wire format: a length-delimited field (wire
type 2) or a varint field (wire type 0), with its field number. -/
inductive WireField where
  | lengthDelimited (num : Nat) (payload : Bytes)
  | varint (num : Nat) (value : Nat)
  deriving DecidableEq, Repr

/-- The field number of a record. -/
def WireField.num : WireField → Nat
  | .lengthDelimited n _ => n
  | .varint n _ => n

/-- The bytes of one record: the tag `(num << 3) | wireType` as a varint, then
the length and the payload, or the value as a varint. -/
def WireField.encode : WireField → Bytes
  | .lengthDelimited n p => encodeVarint (n * 8 + 2) ++ (encodeVarint p.length ++ p)
  | .varint n v => encodeVarint (n * 8) ++ encodeVarint v

/-- The concatenation of the encodings of a list of records. -/
def encodeFields : List WireField → Bytes
  | [] => []
  | f :: fs => f.encode ++ encodeFields fs

/-- The field numbers of the message `sgproto.MarkedOffsetStorageKey`. The
message is declared in the generated `sgproto` package, so its numbering is a
parameter of the development. -/
structure KeySchema where
  fPrefix : Nat
  fTopic : Nat
  fPartition : Nat
  fConsumerGroup : Nat
  fOffset : Nat
  fKind : Nat
  deriving DecidableEq, Repr

/-- A usable numbering: field numbers are positive and pairwise distinct. -/
def KeySchema.WF (s : KeySchema) : Prop :=
  [s.fPrefix, s.fTopic, s.fPartition, s.fConsumerGroup, s.fOffset, s.fKind].Nodup ∧
  ∀ n ∈ [s.fPrefix, s.fTopic, s.fPartition, s.fConsumerGroup, s.fOffset, s.fKind], 1 ≤ n

instance (s : KeySchema) : Decidable s.WF := by
  unfold KeySchema.WF; infer_instance

/-- The numbering 1..6 in the order the fields are written in the source. -/
def KeySchema.inOrder : KeySchema :=
  { fPrefix := 1, fTopic := 2, fPartition := 3, fConsumerGroup := 4, fOffset := 5, fKind := 6 }

/-- The message `sgproto.MarkedOffsetStorageKey`: four strings, an optional
offset (a pointer in Go) and a mark kind (an int32 enum). -/
structure MarkedOffsetStorageKey where
  Prefix : Bytes := []
  Topic : Bytes := []
  Partition : Bytes := []
  ConsumerGroup : Bytes := []
  Offset : Option Offset := none
  Kind : Int := 0
  deriving DecidableEq, Repr

/-- A proto3 string field: left out when empty. -/
def stringField (num : Nat) (s : Bytes) : List WireField :=
  if s = [] then [] else [WireField.lengthDelimited num s]

/-- A nullable custom-type field: left out when the pointer is nil. -/
def offsetField (num : Nat) : Option Offset → List WireField
  | none => []
  | some o => [WireField.lengthDelimited num (offsetBytes o)]

/-- A proto3 enum field: left out when zero, else the value as a 64 bit
two's complement varint. -/
def kindField (num : Nat) (k : Int) : List WireField :=
  if k = 0 then [] else [WireField.varint num (k % 18446744073709551616).toNat]

/-- The records present in a key message, in declaration order. -/
def MarkedOffsetStorageKey.fields (s : KeySchema) (k : MarkedOffsetStorageKey) :
    List WireField :=
  stringField s.fPrefix k.Prefix ++ (stringField s.fTopic k.Topic ++
    (stringField s.fPartition k.Partition ++ (stringField s.fConsumerGroup k.ConsumerGroup ++
      (offsetField s.fOffset k.Offset ++ kindField s.fKind k.Kind))))

/-- The function `proto.Marshal` on a key message: the records present, in
ascending field number order. -/
def protoMarshal (s : KeySchema) (k : MarkedOffsetStorageKey) : Bytes :=
  encodeFields ((k.fields s).insertionSort (fun a b => a.num ≤ b.num))

/-- The literal `"offsets"`. -/
def offsetsLiteral : Bytes := [111, 102, 102, 115, 101, 116, 115]

/-- The function `partitionKey`. -/
def partitionKey (s : KeySchema) (topicName partitionName consumerGroup : Bytes) : Bytes :=
  protoMarshal s
    { Prefix := offsetsLiteral, Topic := topicName, Partition := partitionName,
      ConsumerGroup := consumerGroup }

/-- The function `generateClusterKey`. -/
def generateClusterKey (s : KeySchema) (offset : Offset) (kind : Int) : Bytes :=
  protoMarshal s { Offset := some offset, Kind := kind }

/-! ## Messages, requests and errors -/

/-- The message `sgproto.MarkState`: the mark kind and whatever else the caller
attached; the other fields are kept as one opaque payload. -/
structure MarkState where
  Kind : Int := 0
  Payload : Bytes := []
  deriving DecidableEq, Repr

/-- The message `sgproto.MarkRequest`; `State` is a pointer and may be nil. -/
structure MarkRequest where
  Topic : Bytes
  Partition : Bytes
  ConsumerGroup : Bytes
  Offsets : List Offset
  State : Option MarkState
  deriving DecidableEq, Repr

/-- The message `sgproto.LastOffsetRequest`. -/
structure LastOffsetRequest where
  Topic : Bytes
  Partition : Bytes
  ConsumerGroup : Bytes
  Kind : Int
  deriving DecidableEq, Repr

/-- The message `sgproto.GetMarkRequest`. -/
structure GetMarkRequest where
  Topic : Bytes
  Partition : Bytes
  ConsumerGroup : Bytes
  Offset : Offset
  deriving DecidableEq, Repr

/-- The message `sgproto.Message`, with the fields `mark` fills in. -/
structure Message where
  Key : Bytes
  ClusteringKey : Bytes
  Value : Bytes
  Offset : Offset
  deriving DecidableEq, Repr

/-- The message `sgproto.ProduceMessageRequest`. -/
structure ProduceMessageRequest where
  Topic : String
  Partition : String
  Messages : List Message
  deriving DecidableEq, Repr

/-- The message `sgproto.ProduceResponse`. -/
structure ProduceResponse where
  Offsets : List Offset
  deriving DecidableEq, Repr

/-- The message `sgproto.MarkResponse`. -/
structure MarkResponse where
  Success : Bool
  deriving DecidableEq, Repr

/-- The message `sgproto.LastOffsetReply`. -/
structure LastOffsetResponse where
  Offset : Offset
  deriving DecidableEq, Repr

/-- The errors the offset operations return. -/
inductive Err where
  /-- The value `ErrNoLeaderFound`. -/
  | ErrNoLeaderFound
  /-- The value `ErrTopicNotFound`. -/
  | ErrTopicNotFound
  /-- The value `status.Error(codes.NotFound, msg)`. -/
  | notFound (msg : String)
  /-- The value `fmt.Errorf("LastCommitedOffset malformed value '%v'", value)`. -/
  | malformedValue (value : Bytes)
  /-- An error raised by a collaborator (produce, storage, RPC, marshalling). -/
  | external (code : Nat)
  deriving DecidableEq, Repr

/-- Modelled from the spec: the constant `ConsumerOffsetTopicName`, declared
elsewhere in the broker package; the reserved name of the internal offset topic. -/
def ConsumerOffsetTopicName : String := "__consumer_offsets"

/-! ## Collaborators -/

/-- A topic as the offset code uses it: `ChoosePartitionForKey` gives the `Id`
of the partition chosen for a key. -/
structure Topic where
  Name : String
  ChoosePartitionForKey : Bytes → String

/-- A peer broker, seen through its RPC client: each call answers with a
response or with an error. -/
structure Node where
  Name : String
  Mark : MarkRequest → Except Err MarkResponse
  LastOffset : LastOffsetRequest → Except Err LastOffsetResponse
  GetMarkStateMessage : GetMarkRequest → Except Err Message

/-- What a call of the offset code does to its surroundings. -/
inductive Effect where
  | forwardMark (node : String) (req : MarkRequest)
  | forwardLastOffset (node : String) (req : LastOffsetRequest)
  | forwardGetMarkStateMessage (node : String) (req : GetMarkRequest)
  | produce (req : ProduceMessageRequest)
  | getMessage (partition : String) (offset : Offset) (key clusteringKey : Bytes)
  | hasKey (topic partition : String) (key clusteringKey : Bytes)
  deriving DecidableEq, Repr

/-- The surroundings of a broker: the log of the offset topic held on this node
(partition id and message, oldest first) and the calls made so far. -/
structure World where
  log : List (String × Message)
  trace : List Effect
  deriving DecidableEq, Repr

/-- A broker: its name, the metadata it consults, and the answers of the
collaborators the offset code calls. -/
structure Broker where
  /-- The method `b.Name()`. -/
  Name : String
  /-- The field numbering of `sgproto.MarkedOffsetStorageKey`. -/
  schema : KeySchema
  /-- The method `b.getTopic`; `none` is a nil topic. -/
  getTopic : String → Option Topic
  /-- The method `b.getPartitionLeader`; `none` is a nil node. -/
  getPartitionLeader : String → String → Option Node
  /-- The call `proto.Marshal(req.State)`. -/
  marshalState : MarkState → Except Err Bytes
  /-- The function `generatePrefixConsumerOffsetKey`, defined outside this file. -/
  generatePrefixConsumerOffsetKey : Bytes → Bytes → Bytes → Offset → Bytes
  /-- The enum constant `sgproto.MarkKind_Acknowledged`. -/
  MarkKind_Acknowledged : Int
  /-- What the replicated produce answers to a request: result and error. -/
  produceReply : ProduceMessageRequest → Option ProduceResponse × Option Err
  /-- When the storage engine fails a read of (partition, key, clustering key). -/
  readFault : String → Bytes → Bytes → Option Err

/-! ## The offset topic's storage -/

/-- The comparison `bytes.Compare(a, b) <= 0`. -/
def bytesLE : Bytes → Bytes → Bool
  | [], _ => true
  | _ :: _, [] => false
  | a :: as, b :: bs => a < b || (a == b && bytesLE as bs)

/-- Modelled from the spec: one step of the storage engine's compacted read,
which is not part of this file. It keeps the message with the greater
clustering key; of two messages with the same clustering key the later one
replaces the earlier. -/
def keepGreatest (best : Option Message) (m : Message) : Option Message :=
  match best with
  | none => some m
  | some b => if bytesLE b.ClusteringKey m.ClusteringKey then some m else some b

/-- Modelled from the spec: the storage engine's
`getMessage(partitionId, messageKey, clusteringKeyPrefix)` on a compacted
topic, which is not part of this file. Among the messages of the partition with
that message key and a clustering key that starts with the given bytes it
returns the one with the greatest clustering key, the latest write of it. -/
def lookupGreatest (log : List (String × Message)) (partition : String)
    (key clusteringKey : Bytes) : Option Message :=
  (log.filter (fun e =>
      e.1 == partition && (e.2.Key == key && clusteringKey.isPrefixOf e.2.ClusteringKey))).foldl
    (fun best e => keepGreatest best e.2) none

/-- Modelled from the spec: the method `Partition.GetMessage(offset, key,
clusteringKey)`, not part of this file: the key-indexed read described for
`getMessage`, or the storage engine's error. -/
def Broker.GetMessage (b : Broker) (w : World) (partition : String) (offset : Offset)
    (key clusteringKey : Bytes) : World × Option Message × Option Err :=
  let w1 := { w with trace := w.trace ++ [Effect.getMessage partition offset key clusteringKey] }
  match b.readFault partition key clusteringKey with
  | some e => (w1, none, some e)
  | none => (w1, lookupGreatest w.log partition key clusteringKey, none)

/-- Modelled from the spec: the method `Broker.hasKeyInPartition`, not part of
this file, on the leader of the partition: the storage engine's
`hasKey(partitionId, messageKey, clusteringKey)`, true when a message with
exactly that message key and clustering key is stored. -/
def Broker.hasKeyInPartition (b : Broker) (w : World) (topicName partition : String)
    (key clusteringKey : Bytes) : World × Bool × Option Err :=
  let w1 := { w with trace := w.trace ++ [Effect.hasKey topicName partition key clusteringKey] }
  match b.readFault partition key clusteringKey with
  | some e => (w1, false, some e)
  | none =>
    (w1, w.log.any (fun e =>
      e.1 == partition && (e.2.Key == key && e.2.ClusteringKey == clusteringKey)), none)

/-- Modelled from the spec: the method `Broker.Produce`, not part of this
file: `produce(partitionId, messages)`, a replicated append that takes the
whole batch or none of it. The batch is in the log when the produce answers
with a result and no error. -/
def Broker.Produce (b : Broker) (w : World) (req : ProduceMessageRequest) :
    World × Option ProduceResponse × Option Err :=
  let w1 := { w with trace := w.trace ++ [Effect.produce req] }
  match b.produceReply req with
  | (some res, none) =>
    ({ w1 with log := w1.log ++ req.Messages.map (fun m => (req.Partition, m)) }, some res, none)
  | (res, err) => (w1, res, err)

/-! ## The offset operations of `broker_offset.go`

An operation takes the world it runs in and returns the world it leaves with
its Go results. `none` stands for the run-time panic of a nil topic. -/

/-- The conversion `byte(kind)` of an int32. -/
def byteOfKind (kind : Int) : Nat := (kind % 256).toNat

/-- The empty state that `mark` puts in place of a nil one. -/
def stateOrEmpty (state : Option MarkState) : MarkState :=
  match state with
  | none => {}
  | some st => st

/-- The batch `mark` builds: one message per offset of the request. -/
def markMessages (s : KeySchema) (req : MarkRequest) (value : Bytes) : List Message :=
  req.Offsets.map (fun offset =>
    { Offset := offset
      Key := partitionKey s req.Topic req.Partition req.ConsumerGroup
      ClusteringKey := generateClusterKey s offset (stateOrEmpty req.State).Kind
      Value := value })

/-- The method `Broker.mark`. -/
def Broker.mark (b : Broker) (w : World) (req : MarkRequest) :
    Option (World × Bool × Option Err) :=
  match b.getTopic ConsumerOffsetTopicName with
  | none => none
  | some topic =>
    let p := topic.ChoosePartitionForKey
      (partitionKey b.schema req.Topic req.Partition req.ConsumerGroup)
    match b.getPartitionLeader ConsumerOffsetTopicName p with
    | none => some (w, false, some Err.ErrNoLeaderFound)
    | some n =>
      if n.Name ≠ b.Name then
        let w1 := { w with trace := w.trace ++ [Effect.forwardMark n.Name req] }
        match n.Mark req with
        | .error err => some (w1, false, some err)
        | .ok res => some (w1, res.Success, none)
      else
        match b.marshalState (stateOrEmpty req.State) with
        | .error err => some (w, false, some err)
        | .ok value =>
          let msgs := markMessages b.schema req value
          match b.Produce w
              { Topic := ConsumerOffsetTopicName, Partition := p, Messages := msgs } with
          | (w1, res, err) => some (w1, res.isSome, err)

/-- The method `Broker.last`. -/
def Broker.last (b : Broker) (w : World) (p : String) (pk : Bytes) (kind : Nat) :
    World × Offset × Option Err :=
  match b.GetMessage w p Nil pk [kind] with
  | (w1, _, some err) => (w1, Nil, some err)
  | (w1, none, none) => (w1, Nil, none)
  | (w1, some msg, none) =>
    if msg.Value.length = 0 then (w1, Nil, some (Err.malformedValue msg.Value))
    else (w1, msg.Offset, none)

/-- The method `Broker.lastOffset`. -/
def Broker.lastOffset (b : Broker) (w : World) (topicName partitionName consumerGroup : Bytes)
    (kind : Int) : Option (World × Offset × Option Err) :=
  match b.getTopic ConsumerOffsetTopicName with
  | none => none
  | some topic =>
    let pk := partitionKey b.schema topicName partitionName consumerGroup
    let p := topic.ChoosePartitionForKey pk
    match b.getPartitionLeader ConsumerOffsetTopicName p with
    | none => some (w, Nil, some Err.ErrNoLeaderFound)
    | some n =>
      if n.Name ≠ b.Name then
        let fwd : LastOffsetRequest :=
          { Topic := topicName, Partition := partitionName, ConsumerGroup := consumerGroup,
            Kind := kind }
        let w1 := { w with trace := w.trace ++ [Effect.forwardLastOffset n.Name fwd] }
        match n.LastOffset fwd with
        | .error err => some (w1, Nil, some err)
        | .ok res => some (w1, res.Offset, none)
      else
        some (b.last w p pk (byteOfKind kind))

/-- The method `Broker.GetMarkStateMessage`. -/
def Broker.GetMarkStateMessage (b : Broker) (w : World) (req : GetMarkRequest) :
    Option (World × Option Message × Option Err) :=
  match b.getTopic ConsumerOffsetTopicName with
  | none => none
  | some topic =>
    let pk := partitionKey b.schema req.Topic req.Partition req.ConsumerGroup
    let p := topic.ChoosePartitionForKey pk
    match b.getPartitionLeader ConsumerOffsetTopicName p with
    | none => some (w, none, some Err.ErrNoLeaderFound)
    | some n =>
      if n.Name ≠ b.Name then
        let w1 := { w with trace := w.trace ++ [Effect.forwardGetMarkStateMessage n.Name req] }
        match n.GetMarkStateMessage req with
        | .error err => some (w1, none, some err)
        | .ok res => some (w1, some res, none)
      else
        let key := b.generatePrefixConsumerOffsetKey req.Topic req.Partition req.ConsumerGroup
          req.Offset
        match b.GetMessage w p Nil key [] with
        | (w1, _, some err) => some (w1, none, some err)
        | (w1, none, none) => some (w1, none, some (Err.notFound "mark state not found"))
        | (w1, some msg, none) => some (w1, some msg, none)

/-- The method `Broker.isAcknoweldged`. -/
def Broker.isAcknoweldged (b : Broker) (w : World) (topicName partition consumerGroup : Bytes)
    (offset : Offset) : World × Bool × Option Err :=
  match b.getTopic ConsumerOffsetTopicName with
  | none => (w, false, some Err.ErrTopicNotFound)
  | some topic =>
    let pk := partitionKey b.schema topicName partition consumerGroup
    let p := topic.ChoosePartitionForKey pk
    let clusterKey := generateClusterKey b.schema offset b.MarkKind_Acknowledged
    b.hasKeyInPartition w ConsumerOffsetTopicName p pk clusterKey

/-- A sequence of `mark` calls, one after the other, each in the world the
previous one left; the results are returned in order. -/
def Broker.markAll (b : Broker) : World → List MarkRequest → Option (World × List (Bool × Option Err))
  | w, [] => some (w, [])
  | w, req :: reqs =>
    match b.mark w req with
    | none => none
    | some (w1, ok, err) =>
      match Broker.markAll b w1 reqs with
      | none => none
      | some (w2, rs) => some (w2, (ok, err) :: rs)

/-- Every clustering key in the log was made by `generateClusterKey`: the log
of an offset topic that only `mark` has written to. -/
def KeyedByMark (s : KeySchema) (log : List (String × Message)) : Prop :=
  ∀ e ∈ log, ∃ o kind, e.2.ClusteringKey = generateClusterKey s o kind

/-! ## A concrete broker for evaluating the operations -/

/-- A topic with three partitions chosen by the length of the key. -/
def demoTopic : Topic :=
  { Name := ConsumerOffsetTopicName
    ChoosePartitionForKey := fun k =>
      if k.length % 3 = 0 then "p0" else if k.length % 3 = 1 then "p1" else "p2" }

/-- A peer that accepts every mark and answers fixed values to the queries. -/
def demoPeer : Node :=
  { Name := "broker1"
    Mark := fun _ => .ok { Success := true }
    LastOffset := fun _ => .ok { Offset := 41 }
    GetMarkStateMessage := fun req =>
      .ok { Key := [1], ClusteringKey := [2], Value := [3], Offset := req.Offset } }

/-- A peer whose calls all fail. -/
def failingPeer : Node :=
  { Name := "broker1"
    Mark := fun _ => .error (Err.external 14)
    LastOffset := fun _ => .error (Err.external 14)
    GetMarkStateMessage := fun _ => .error (Err.external 14) }

/-- The local node as a leader entry. -/
def selfNode : Node :=
  { Name := "broker0"
    Mark := fun _ => .error (Err.external 0)
    LastOffset := fun _ => .error (Err.external 0)
    GetMarkStateMessage := fun _ => .error (Err.external 0) }

/-- A marshalling of mark states: the kind as field 1, then the payload. -/
def demoMarshal (st : MarkState) : Except Err Bytes :=
  .ok (encodeFields (kindField 1 st.Kind) ++ st.Payload)

/-- The broker `broker0` with the given leader for every partition of the
offset topic; produce and storage never fail. -/
def demoBroker (leader : Option Node) : Broker :=
  { Name := "broker0"
    schema := KeySchema.inOrder
    getTopic := fun name => if name = ConsumerOffsetTopicName then some demoTopic else none
    getPartitionLeader := fun _ _ => leader
    marshalState := demoMarshal
    generatePrefixConsumerOffsetKey := fun t p g _ => partitionKey KeySchema.inOrder t p g
    MarkKind_Acknowledged := 2
    produceReply := fun req => (some { Offsets := req.Messages.map (fun m => m.Offset) }, none)
    readFault := fun _ _ _ => none }

/-- The broker `broker0`, leading every partition, whose produce is refused. -/
def rejectingBroker : Broker :=
  { demoBroker (some selfNode) with produceReply := fun _ => (none, some (Err.external 5)) }

/-- The broker `broker0`, leading every partition, whose storage reads fail. -/
def unreadableBroker : Broker :=
  { demoBroker (some selfNode) with readFault := fun _ _ _ => some (Err.external 9) }

/-- The world before anything was marked. -/
def emptyWorld : World := { log := [], trace := [] }

/-- A mark request on the stream ("pay", "0", "g1"). -/
def demoMark (offsets : List Offset) (kind : Int) : MarkRequest :=
  { Topic := [112, 97, 121], Partition := [48], ConsumerGroup := [103, 49],
    Offsets := offsets, State := some { Kind := kind } }

/-- The world a run of `mark` calls leaves, the empty world if one panics. -/
def worldAfter (b : Broker) (reqs : List MarkRequest) : World :=
  match b.markAll emptyWorld reqs with
  | none => emptyWorld
  | some (w, _) => w

/-! ## The wire format is uniquely decodable -/

theorem encodeVarintAux_ne_nil (fuel x : Nat) : encodeVarintAux fuel x ≠ [] := by
  cases fuel with
  | zero => simp [encodeVarintAux]
  | succ n =>
    unfold encodeVarintAux
    split <;> simp

theorem encodeVarintAux_append_inj : ∀ (fa fb a b : Nat) (r s : Bytes),
    a ≤ fa → b ≤ fb → encodeVarintAux fa a ++ r = encodeVarintAux fb b ++ s →
    a = b ∧ r = s := by
  intro fa
  induction fa with
  | zero =>
    intro fb a b r s ha hb h
    have ha0 : a = 0 := by omega
    subst ha0
    cases fb with
    | zero =>
      have hb0 : b = 0 := by omega
      subst hb0
      simpa [encodeVarintAux] using h
    | succ n =>
      unfold encodeVarintAux at h
      split at h
      · simp at h
        exact ⟨h.1, h.2⟩
      · simp at h
  | succ m ih =>
    intro fb a b r s ha hb h
    cases fb with
    | zero =>
      have hb0 : b = 0 := by omega
      subst hb0
      unfold encodeVarintAux at h
      split at h
      · simp [encodeVarintAux] at h
        exact ⟨h.1, h.2⟩
      · simp [encodeVarintAux] at h
    | succ n =>
      unfold encodeVarintAux at h
      split at h <;> split at h
      · simp at h
        exact ⟨h.1, h.2⟩
      · simp at h
        omega
      · simp at h
        omega
      · simp only [List.cons_append, List.cons.injEq] at h
        have h2 := ih n (a / 128) (b / 128) r s (by omega) (by omega) h.2
        refine ⟨?_, h2.2⟩
        omega

theorem encodeVarint_append_inj (a b : Nat) (r s : Bytes)
    (h : encodeVarint a ++ r = encodeVarint b ++ s) : a = b ∧ r = s :=
  encodeVarintAux_append_inj a b a b r s (Nat.le_refl a) (Nat.le_refl b) h

theorem WireField.encode_ne_nil (f : WireField) : f.encode ≠ [] := by
  cases f <;> simp [WireField.encode, encodeVarint, encodeVarintAux_ne_nil]

theorem WireField.encode_append_inj (f g : WireField) (r s : Bytes)
    (h : f.encode ++ r = g.encode ++ s) : f = g ∧ r = s := by
  cases f with
  | lengthDelimited n p =>
    cases g with
    | lengthDelimited m q =>
      simp only [WireField.encode, List.append_assoc] at h
      obtain ⟨h1, h2⟩ := encodeVarint_append_inj _ _ _ _ h
      obtain ⟨h3, h4⟩ := encodeVarint_append_inj _ _ _ _ h2
      obtain ⟨h5, h6⟩ := List.append_inj h4 h3
      refine ⟨?_, h6⟩
      have : n = m := by omega
      rw [this, h5]
    | varint m v =>
      simp only [WireField.encode, List.append_assoc] at h
      obtain ⟨h1, _⟩ := encodeVarint_append_inj _ _ _ _ h
      omega
  | varint n v =>
    cases g with
    | lengthDelimited m q =>
      simp only [WireField.encode, List.append_assoc] at h
      obtain ⟨h1, _⟩ := encodeVarint_append_inj _ _ _ _ h
      omega
    | varint m w =>
      simp only [WireField.encode, List.append_assoc] at h
      obtain ⟨h1, h2⟩ := encodeVarint_append_inj _ _ _ _ h
      obtain ⟨h3, h4⟩ := encodeVarint_append_inj _ _ _ _ h2
      refine ⟨?_, h4⟩
      have : n = m := by omega
      rw [this, h3]

theorem encodeFields_inj : ∀ (l m : List WireField), encodeFields l = encodeFields m → l = m := by
  intro l
  induction l with
  | nil =>
    intro m h
    cases m with
    | nil => rfl
    | cons g gs =>
      exfalso
      simp only [encodeFields] at h
      have := WireField.encode_ne_nil g
      cases hg : g.encode with
      | nil => exact this hg
      | cons x xs => rw [hg] at h; simp at h
  | cons f fs ih =>
    intro m h
    cases m with
    | nil =>
      exfalso
      simp only [encodeFields] at h
      have := WireField.encode_ne_nil f
      cases hf : f.encode with
      | nil => exact this hf
      | cons x xs => rw [hf] at h; simp at h
    | cons g gs =>
      simp only [encodeFields] at h
      obtain ⟨h1, h2⟩ := WireField.encode_append_inj f g _ _ h
      rw [h1, ih gs h2]

/-- Equal marshalled bytes come from the same set of records. -/
theorem protoMarshal_fields_perm (s : KeySchema) (k k2 : MarkedOffsetStorageKey)
    (h : protoMarshal s k = protoMarshal s k2) : (k.fields s).Perm (k2.fields s) := by
  have h1 := encodeFields_inj _ _ h
  have p1 := List.perm_insertionSort (fun a b : WireField => a.num ≤ b.num) (k.fields s)
  have p2 := List.perm_insertionSort (fun a b : WireField => a.num ≤ b.num) (k2.fields s)
  rw [h1] at p1
  exact p1.symm.trans p2

theorem mem_stringField_num {n : Nat} {x : Bytes} {f : WireField}
    (h : f ∈ stringField n x) : f.num = n := by
  unfold stringField at h
  split at h
  · simp at h
  · simp at h; rw [h]; rfl

theorem stringField_eq_of_mem_iff (n : Nat) (x y : Bytes)
    (h : ∀ f, f ∈ stringField n x ↔ f ∈ stringField n y) : x = y := by
  by_cases hx : x = []
  · by_cases hy : y = []
    · rw [hx, hy]
    · have := (h (WireField.lengthDelimited n y)).2 (by simp [stringField, hy])
      simp [stringField, hx] at this
  · have := (h (WireField.lengthDelimited n x)).1 (by simp [stringField, hx])
    by_cases hy : y = []
    · simp [stringField, hy] at this
    · simp [stringField, hy] at this
      exact this

/-- The records of a stream key, one component at a time. -/
theorem mem_streamKey_fields (s : KeySchema) (pre t p g : Bytes) (f : WireField) :
    f ∈ MarkedOffsetStorageKey.fields s
        { Prefix := pre, Topic := t, Partition := p, ConsumerGroup := g } ↔
      f ∈ stringField s.fPrefix pre ∨ f ∈ stringField s.fTopic t ∨
        f ∈ stringField s.fPartition p ∨ f ∈ stringField s.fConsumerGroup g := by
  simp [MarkedOffsetStorageKey.fields, offsetField, kindField]

/-! ## Routing: no leader, remote leader -/

/-- C5: when no leader is known for the offset-topic partition chosen for the
stream key, `mark`, `lastOffset` and `GetMarkStateMessage` fail with
`ErrNoLeaderFound`, returning false, `Nil` and no message, and leave the world
as it was: nothing is forwarded, produced or read, and the log is unchanged. -/
theorem no_leader_fails_without_effect (b : Broker) (w : World) (topic : Topic)
    (t p g : Bytes)
    (ht : b.getTopic ConsumerOffsetTopicName = some topic)
    (hl : b.getPartitionLeader ConsumerOffsetTopicName
      (topic.ChoosePartitionForKey (partitionKey b.schema t p g)) = none) :
    (∀ os st, b.mark w ⟨t, p, g, os, st⟩ = some (w, false, some Err.ErrNoLeaderFound)) ∧
    (∀ kind, b.lastOffset w t p g kind = some (w, Nil, some Err.ErrNoLeaderFound)) ∧
    (∀ o, b.GetMarkStateMessage w ⟨t, p, g, o⟩ = some (w, none, some Err.ErrNoLeaderFound)) := by
  refine ⟨?_, ?_, ?_⟩
  · intro os st
    simp [Broker.mark, ht, hl]
  · intro kind
    simp [Broker.lastOffset, ht, hl]
  · intro o
    simp [Broker.GetMarkStateMessage, ht, hl]

theorem no_leader_fails_without_effect_witness :
    (demoBroker none).getTopic ConsumerOffsetTopicName = some demoTopic ∧
    (demoBroker none).getPartitionLeader ConsumerOffsetTopicName
      (demoTopic.ChoosePartitionForKey
        (partitionKey (demoBroker none).schema [112, 97, 121] [48] [103, 49])) = none ∧
    (demoBroker none).mark emptyWorld (demoMark [7] 2) =
      some (emptyWorld, false, some Err.ErrNoLeaderFound) :=
  ⟨rfl, rfl,
    (no_leader_fails_without_effect (demoBroker none) emptyWorld demoTopic
      [112, 97, 121] [48] [103, 49] rfl rfl).1 [7] (some { Kind := 2 })⟩

/-- C6: when the leader of the chosen offset-topic partition is another node,
`mark`, `lastOffset` and `GetMarkStateMessage` make exactly one call, to that
node, carrying the caller's topic, partition, consumer group and the offsets
and state (a nil state still nil), the kind, or the offset, unchanged; the log
is untouched and nothing is produced or read locally; the result is the
leader's answer (success flag, offset, message) when it succeeds and its error,
with false, `Nil` or no message, when it fails. -/
theorem remote_leader_forwards (b : Broker) (w : World) (topic : Topic) (n : Node)
    (t p g : Bytes)
    (ht : b.getTopic ConsumerOffsetTopicName = some topic)
    (hl : b.getPartitionLeader ConsumerOffsetTopicName
      (topic.ChoosePartitionForKey (partitionKey b.schema t p g)) = some n)
    (hn : n.Name ≠ b.Name) :
    (∀ os st, b.mark w ⟨t, p, g, os, st⟩ =
      some ({ w with trace := w.trace ++ [Effect.forwardMark n.Name ⟨t, p, g, os, st⟩] },
        match n.Mark ⟨t, p, g, os, st⟩ with
        | .ok res => (res.Success, none)
        | .error err => (false, some err))) ∧
    (∀ kind, b.lastOffset w t p g kind =
      some ({ w with trace := w.trace ++ [Effect.forwardLastOffset n.Name ⟨t, p, g, kind⟩] },
        match n.LastOffset ⟨t, p, g, kind⟩ with
        | .ok res => (res.Offset, none)
        | .error err => (Nil, some err))) ∧
    (∀ o, b.GetMarkStateMessage w ⟨t, p, g, o⟩ =
      some ({ w with
          trace := w.trace ++ [Effect.forwardGetMarkStateMessage n.Name ⟨t, p, g, o⟩] },
        match n.GetMarkStateMessage ⟨t, p, g, o⟩ with
        | .ok res => (some res, none)
        | .error err => (none, some err))) := by
  refine ⟨?_, ?_, ?_⟩
  · intro os st
    simp only [Broker.mark, ht, hl, hn, ne_eq, not_false_eq_true, if_true]
    cases n.Mark ⟨t, p, g, os, st⟩ <;> rfl
  · intro kind
    simp only [Broker.lastOffset, ht, hl, hn, ne_eq, not_false_eq_true, if_true]
    cases n.LastOffset ⟨t, p, g, kind⟩ <;> rfl
  · intro o
    simp only [Broker.GetMarkStateMessage, ht, hl, hn, ne_eq, not_false_eq_true, if_true]
    cases n.GetMarkStateMessage ⟨t, p, g, o⟩ <;> rfl

theorem remote_leader_forwards_witness :
    (demoBroker (some failingPeer)).getTopic ConsumerOffsetTopicName = some demoTopic ∧
    failingPeer.Name ≠ (demoBroker (some failingPeer)).Name ∧
    (demoBroker (some failingPeer)).mark emptyWorld
        ⟨[112, 97, 121], [48], [103, 49], [7], none⟩ =
      some ({ emptyWorld with
          trace := emptyWorld.trace ++
            [Effect.forwardMark "broker1" ⟨[112, 97, 121], [48], [103, 49], [7], none⟩] },
        (false, some (Err.external 14))) :=
  ⟨rfl, by decide,
    (remote_leader_forwards (demoBroker (some failingPeer)) emptyWorld demoTopic failingPeer
      [112, 97, 121] [48] [103, 49] rfl rfl (by decide)).1 [7] none⟩

/-- A remote leader that accepts: the caller gets its success flag, its offset
and its message, and the local log stays empty. -/
theorem remote_leader_answers :
    (demoBroker (some demoPeer)).mark emptyWorld (demoMark [7] 2) =
      some ({ log := [], trace := [Effect.forwardMark "broker1" (demoMark [7] 2)] },
        true, none) ∧
    ((demoBroker (some demoPeer)).lastOffset emptyWorld [112, 97, 121] [48] [103, 49] 2).map
        (fun r => (r.1.log, r.2)) = some ([], 41, none) ∧
    ((demoBroker (some demoPeer)).GetMarkStateMessage emptyWorld
        ⟨[112, 97, 121], [48], [103, 49], 7⟩).map (fun r => (r.1.log, r.2)) =
      some ([], some { Key := [1], ClusteringKey := [2], Value := [3], Offset := 7 }, none) := by
  decide

/-! ## The local path of `mark` -/

theorem Broker.Produce_trace (b : Broker) (w : World) (req : ProduceMessageRequest) :
    (b.Produce w req).1.trace = w.trace ++ [Effect.produce req] := by
  unfold Broker.Produce
  split <;> rfl

theorem Broker.mark_local (b : Broker) (w : World) (topic : Topic) (n : Node)
    (req : MarkRequest) (value : Bytes)
    (ht : b.getTopic ConsumerOffsetTopicName = some topic)
    (hl : b.getPartitionLeader ConsumerOffsetTopicName
      (topic.ChoosePartitionForKey
        (partitionKey b.schema req.Topic req.Partition req.ConsumerGroup)) = some n)
    (hn : n.Name = b.Name)
    (hv : b.marshalState (stateOrEmpty req.State) = .ok value) :
    b.mark w req =
      some ((b.Produce w
          { Topic := ConsumerOffsetTopicName
            Partition := topic.ChoosePartitionForKey
              (partitionKey b.schema req.Topic req.Partition req.ConsumerGroup)
            Messages := markMessages b.schema req value }).1,
        (b.Produce w
          { Topic := ConsumerOffsetTopicName
            Partition := topic.ChoosePartitionForKey
              (partitionKey b.schema req.Topic req.Partition req.ConsumerGroup)
            Messages := markMessages b.schema req value }).2.1.isSome,
        (b.Produce w
          { Topic := ConsumerOffsetTopicName
            Partition := topic.ChoosePartitionForKey
              (partitionKey b.schema req.Topic req.Partition req.ConsumerGroup)
            Messages := markMessages b.schema req value }).2.2) := by
  simp [Broker.mark, ht, hl, hn, hv]

/-- On the local-leader path a marshalling error ends `mark` before the
produce: it returns false with that error and the world as it was. -/
theorem Broker.mark_local_marshal_error (b : Broker) (w : World) (topic : Topic) (n : Node)
    (req : MarkRequest) (e : Err)
    (ht : b.getTopic ConsumerOffsetTopicName = some topic)
    (hl : b.getPartitionLeader ConsumerOffsetTopicName
      (topic.ChoosePartitionForKey
        (partitionKey b.schema req.Topic req.Partition req.ConsumerGroup)) = some n)
    (hn : n.Name = b.Name)
    (hv : b.marshalState (stateOrEmpty req.State) = .error e) :
    b.mark w req = some (w, false, some e) := by
  simp [Broker.mark, ht, hl, hn, hv]

/-- C7: on the local-leader path, for a request with offsets `os` (possibly
empty) whose state marshals to `value`, `mark` issues exactly one produce, to
the chosen partition of the offset topic; its batch has length `|os|`, its
i-th message has offset `os[i]`, key `partitionKey(topic, partition,
consumerGroup)`, clustering key `generateClusterKey(os[i], state.Kind)` and
value `value`; a nil state counts as the empty `MarkState`; for empty `os` the
batch is empty. -/
theorem mark_local_produces_one_batch (b : Broker) (w : World) (topic : Topic) (n : Node)
    (req : MarkRequest) (value : Bytes)
    (ht : b.getTopic ConsumerOffsetTopicName = some topic)
    (hl : b.getPartitionLeader ConsumerOffsetTopicName
      (topic.ChoosePartitionForKey
        (partitionKey b.schema req.Topic req.Partition req.ConsumerGroup)) = some n)
    (hn : n.Name = b.Name)
    (hv : b.marshalState (match req.State with
      | none => ({} : MarkState)
      | some st => st) = .ok value) :
    ∃ w1 ok err batch,
      b.mark w req = some (w1, ok, err) ∧
      w1.trace = w.trace ++ [Effect.produce
        { Topic := ConsumerOffsetTopicName
          Partition := topic.ChoosePartitionForKey
            (partitionKey b.schema req.Topic req.Partition req.ConsumerGroup)
          Messages := batch }] ∧
      batch.length = req.Offsets.length ∧
      (∀ (i : Nat) (o : Offset), req.Offsets[i]? = some o →
        batch[i]? = some
          ({ Offset := o
             Key := partitionKey b.schema req.Topic req.Partition req.ConsumerGroup
             ClusteringKey := generateClusterKey b.schema o
               (match req.State with
                 | none => ({} : MarkState)
                 | some st => st).Kind
             Value := value } : Message)) ∧
      (req.Offsets = [] → batch = []) := by
  have hv2 : b.marshalState (stateOrEmpty req.State) = .ok value := hv
  refine ⟨_, _, _, markMessages b.schema req value,
    Broker.mark_local b w topic n req value ht hl hn hv2, Broker.Produce_trace _ _ _, ?_, ?_, ?_⟩
  · simp [markMessages]
  · intro i o hi
    simp [markMessages, hi, stateOrEmpty]
  · intro h
    simp [markMessages, h]

theorem mark_local_produces_one_batch_witness :
    ∃ w1 ok err batch,
      (demoBroker (some selfNode)).mark emptyWorld
        ⟨[112, 97, 121], [48], [103, 49], [7, 9], none⟩ = some (w1, ok, err) ∧
      w1.trace = emptyWorld.trace ++ [Effect.produce
        { Topic := ConsumerOffsetTopicName
          Partition := demoTopic.ChoosePartitionForKey
            (partitionKey KeySchema.inOrder [112, 97, 121] [48] [103, 49])
          Messages := batch }] ∧
      batch.length = 2 ∧
      (∀ (i : Nat) (o : Offset), ([7, 9] : List Offset)[i]? = some o →
        batch[i]? = some
          ({ Offset := o
             Key := partitionKey KeySchema.inOrder [112, 97, 121] [48] [103, 49]
             ClusteringKey := generateClusterKey KeySchema.inOrder o 0
             Value := [] } : Message)) ∧
      (([7, 9] : List Offset) = [] → batch = []) :=
  mark_local_produces_one_batch (demoBroker (some selfNode)) emptyWorld demoTopic selfNode
    ⟨[112, 97, 121], [48], [103, 49], [7, 9], none⟩ [] rfl rfl rfl rfl

/-- C8: on the local-leader path, once the state is marshalled and the batch
is produced, `mark` returns success exactly when the produce returned a non-nil
result, and the error it returns is the error the produce returned, whatever
the produce answers. -/
theorem mark_local_returns_produce_result (b : Broker) (w : World) (topic : Topic) (n : Node)
    (req : MarkRequest) (value : Bytes) (w1 : World) (res : Option ProduceResponse)
    (err : Option Err)
    (ht : b.getTopic ConsumerOffsetTopicName = some topic)
    (hl : b.getPartitionLeader ConsumerOffsetTopicName
      (topic.ChoosePartitionForKey
        (partitionKey b.schema req.Topic req.Partition req.ConsumerGroup)) = some n)
    (hn : n.Name = b.Name)
    (hv : b.marshalState (stateOrEmpty req.State) = .ok value)
    (hp : b.Produce w
      { Topic := ConsumerOffsetTopicName
        Partition := topic.ChoosePartitionForKey
          (partitionKey b.schema req.Topic req.Partition req.ConsumerGroup)
        Messages := markMessages b.schema req value } = (w1, res, err)) :
    ∃ ok, b.mark w req = some (w1, ok, err) ∧ (ok = true ↔ res ≠ none) := by
  refine ⟨res.isSome, ?_, ?_⟩
  · rw [Broker.mark_local b w topic n req value ht hl hn hv, hp]
  · cases res <;> simp

theorem mark_local_returns_produce_result_witness :
    ∃ ok, rejectingBroker.mark emptyWorld (demoMark [7] 2) =
        some ({ log := [], trace := [Effect.produce
          { Topic := ConsumerOffsetTopicName, Partition := "p0"
            Messages := markMessages KeySchema.inOrder (demoMark [7] 2) [8, 2] }] },
          ok, some (Err.external 5)) ∧
      (ok = true ↔ (none : Option ProduceResponse) ≠ none) :=
  mark_local_returns_produce_result rejectingBroker emptyWorld demoTopic selfNode
    (demoMark [7] 2) [8, 2] _ none _ rfl rfl rfl rfl rfl

/-! ## The local path of `lastOffset` -/

theorem Broker.lastOffset_local (b : Broker) (w : World) (topic : Topic) (n : Node)
    (t p g : Bytes) (kind : Int)
    (ht : b.getTopic ConsumerOffsetTopicName = some topic)
    (hl : b.getPartitionLeader ConsumerOffsetTopicName
      (topic.ChoosePartitionForKey (partitionKey b.schema t p g)) = some n)
    (hn : n.Name = b.Name) :
    b.lastOffset w t p g kind =
      some (b.last w (topic.ChoosePartitionForKey (partitionKey b.schema t p g))
        (partitionKey b.schema t p g) (byteOfKind kind)) := by
  simp [Broker.lastOffset, ht, hl, hn]

/-- C9: on the local-leader path `lastOffset` reads the storage once, for the
stream key and the one byte of the kind, and returns `Nil` with no error when
the lookup finds no message, `Nil` with a malformed-value error when the
message found has an empty value, the offset of the message found with no
error otherwise, and `Nil` with the storage error when the lookup fails. -/
theorem lastOffset_local_cases (b : Broker) (w : World) (topic : Topic) (n : Node)
    (t p g : Bytes) (kind : Int)
    (ht : b.getTopic ConsumerOffsetTopicName = some topic)
    (hl : b.getPartitionLeader ConsumerOffsetTopicName
      (topic.ChoosePartitionForKey (partitionKey b.schema t p g)) = some n)
    (hn : n.Name = b.Name) :
    ∃ w1 msg err,
      b.GetMessage w (topic.ChoosePartitionForKey (partitionKey b.schema t p g)) Nil
        (partitionKey b.schema t p g) [byteOfKind kind] = (w1, msg, err) ∧
      w1 = { w with trace := w.trace ++ [Effect.getMessage
          (topic.ChoosePartitionForKey (partitionKey b.schema t p g)) Nil
          (partitionKey b.schema t p g) [byteOfKind kind]] } ∧
      (err = none → msg = none → b.lastOffset w t p g kind = some (w1, Nil, none)) ∧
      (err = none → ∀ m, msg = some m → m.Value.length = 0 →
        b.lastOffset w t p g kind = some (w1, Nil, some (Err.malformedValue m.Value))) ∧
      (err = none → ∀ m, msg = some m → m.Value.length ≠ 0 →
        b.lastOffset w t p g kind = some (w1, m.Offset, none)) ∧
      (∀ e, err = some e → b.lastOffset w t p g kind = some (w1, Nil, some e)) := by
  have hw : (b.GetMessage w (topic.ChoosePartitionForKey (partitionKey b.schema t p g)) Nil
      (partitionKey b.schema t p g) [byteOfKind kind]).1 =
      { w with trace := w.trace ++ [Effect.getMessage
          (topic.ChoosePartitionForKey (partitionKey b.schema t p g)) Nil
          (partitionKey b.schema t p g) [byteOfKind kind]] } := by
    unfold Broker.GetMessage
    split <;> rfl
  rw [Broker.lastOffset_local b w topic n t p g kind ht hl hn]
  rcases hr : b.GetMessage w (topic.ChoosePartitionForKey (partitionKey b.schema t p g)) Nil
      (partitionKey b.schema t p g) [byteOfKind kind] with ⟨w1, msg, err⟩
  rw [hr] at hw
  refine ⟨w1, msg, err, rfl, hw, ?_, ?_, ?_, ?_⟩
  · intro he hm
    subst he hm
    simp [Broker.last, hr]
  · intro he m hm hlen
    subst he hm
    simp [Broker.last, hr, hlen]
  · intro he m hm hlen
    subst he hm
    simp [Broker.last, hr, hlen]
  · intro e he
    subst he
    simp [Broker.last, hr]

theorem lastOffset_local_cases_witness :
    ∃ w1 msg err,
      unreadableBroker.GetMessage emptyWorld
        (demoTopic.ChoosePartitionForKey
          (partitionKey unreadableBroker.schema [112, 97, 121] [48] [103, 49])) Nil
        (partitionKey unreadableBroker.schema [112, 97, 121] [48] [103, 49])
        [byteOfKind 2] = (w1, msg, err) ∧
      w1 = { emptyWorld with trace := emptyWorld.trace ++ [Effect.getMessage
          (demoTopic.ChoosePartitionForKey
            (partitionKey unreadableBroker.schema [112, 97, 121] [48] [103, 49])) Nil
          (partitionKey unreadableBroker.schema [112, 97, 121] [48] [103, 49])
          [byteOfKind 2]] } ∧
      (err = none → msg = none →
        unreadableBroker.lastOffset emptyWorld [112, 97, 121] [48] [103, 49] 2 =
          some (w1, Nil, none)) ∧
      (err = none → ∀ m, msg = some m → m.Value.length = 0 →
        unreadableBroker.lastOffset emptyWorld [112, 97, 121] [48] [103, 49] 2 =
          some (w1, Nil, some (Err.malformedValue m.Value))) ∧
      (err = none → ∀ m, msg = some m → m.Value.length ≠ 0 →
        unreadableBroker.lastOffset emptyWorld [112, 97, 121] [48] [103, 49] 2 =
          some (w1, m.Offset, none)) ∧
      (∀ e, err = some e →
        unreadableBroker.lastOffset emptyWorld [112, 97, 121] [48] [103, 49] 2 =
          some (w1, Nil, some e)) :=
  lastOffset_local_cases unreadableBroker emptyWorld demoTopic selfNode
    [112, 97, 121] [48] [103, 49] 2 rfl rfl rfl

/-! ## The stream key -/

theorem eq_of_component_mem_iff {l m : List WireField} (n : Nat) (x y : Bytes)
    (hlm : ∀ f, f ∈ l ↔ f ∈ m)
    (hl : ∀ f, f.num = n → (f ∈ l ↔ f ∈ stringField n x))
    (hm : ∀ f, f.num = n → (f ∈ m ↔ f ∈ stringField n y)) : x = y := by
  apply stringField_eq_of_mem_iff n
  intro f
  by_cases hf : f.num = n
  · rw [← hl f hf, ← hm f hf]
    exact hlm f
  · constructor
    · intro h
      exact absurd (mem_stringField_num h) hf
    · intro h
      exact absurd (mem_stringField_num h) hf

theorem streamKey_component (s : KeySchema) (pre t p g : Bytes) (f : WireField) :
    (s.fTopic ≠ s.fPrefix → s.fTopic ≠ s.fPartition → s.fTopic ≠ s.fConsumerGroup →
      f.num = s.fTopic →
      (f ∈ MarkedOffsetStorageKey.fields s
          { Prefix := pre, Topic := t, Partition := p, ConsumerGroup := g } ↔
        f ∈ stringField s.fTopic t)) ∧
    (s.fPartition ≠ s.fPrefix → s.fPartition ≠ s.fTopic → s.fPartition ≠ s.fConsumerGroup →
      f.num = s.fPartition →
      (f ∈ MarkedOffsetStorageKey.fields s
          { Prefix := pre, Topic := t, Partition := p, ConsumerGroup := g } ↔
        f ∈ stringField s.fPartition p)) ∧
    (s.fConsumerGroup ≠ s.fPrefix → s.fConsumerGroup ≠ s.fTopic →
      s.fConsumerGroup ≠ s.fPartition → f.num = s.fConsumerGroup →
      (f ∈ MarkedOffsetStorageKey.fields s
          { Prefix := pre, Topic := t, Partition := p, ConsumerGroup := g } ↔
        f ∈ stringField s.fConsumerGroup g)) := by
  refine ⟨?_, ?_, ?_⟩
  · intro h1 h2 h3 hf
    rw [mem_streamKey_fields]
    constructor
    · rintro (h | h | h | h)
      · exact absurd ((mem_stringField_num h).symm.trans hf).symm h1
      · exact h
      · exact absurd ((mem_stringField_num h).symm.trans hf).symm h2
      · exact absurd ((mem_stringField_num h).symm.trans hf).symm h3
    · intro h
      exact Or.inr (Or.inl h)
  · intro h1 h2 h3 hf
    rw [mem_streamKey_fields]
    constructor
    · rintro (h | h | h | h)
      · exact absurd ((mem_stringField_num h).symm.trans hf).symm h1
      · exact absurd ((mem_stringField_num h).symm.trans hf).symm h2
      · exact h
      · exact absurd ((mem_stringField_num h).symm.trans hf).symm h3
    · intro h
      exact Or.inr (Or.inr (Or.inl h))
  · intro h1 h2 h3 hf
    rw [mem_streamKey_fields]
    constructor
    · rintro (h | h | h | h)
      · exact absurd ((mem_stringField_num h).symm.trans hf).symm h1
      · exact absurd ((mem_stringField_num h).symm.trans hf).symm h2
      · exact absurd ((mem_stringField_num h).symm.trans hf).symm h3
      · exact h
    · intro h
      exact Or.inr (Or.inr (Or.inr h))

/-- C10: `partitionKey` is an injective encoding of the stream identity: two
(topic, partition, consumer group) triples give equal bytes exactly when the
triples are equal, empty components and components with shared text included,
for every numbering of the key message with distinct positive field numbers. -/
theorem partitionKey_eq_iff (s : KeySchema) (hs : s.WF)
    (t p g t2 p2 g2 : Bytes) :
    partitionKey s t p g = partitionKey s t2 p2 g2 ↔ (t = t2 ∧ p = p2 ∧ g = g2) := by
  constructor
  · intro h
    have hperm := protoMarshal_fields_perm s _ _ h
    have hmem : ∀ f, f ∈ MarkedOffsetStorageKey.fields s
          { Prefix := offsetsLiteral, Topic := t, Partition := p, ConsumerGroup := g } ↔
        f ∈ MarkedOffsetStorageKey.fields s
          { Prefix := offsetsLiteral, Topic := t2, Partition := p2, ConsumerGroup := g2 } :=
      fun f => hperm.mem_iff
    have hnd := hs.1
    simp only [List.nodup_cons, List.mem_cons, List.mem_singleton, not_or, List.not_mem_nil,
      not_false_eq_true, List.nodup_nil, and_true] at hnd
    obtain ⟨⟨a1, a2, a3, _, _⟩, ⟨b1, b2, _, _⟩, ⟨c1, _, _⟩, _⟩ := hnd
    refine ⟨?_, ?_, ?_⟩
    · exact eq_of_component_mem_iff s.fTopic t t2 hmem
        (fun f hf => (streamKey_component s offsetsLiteral t p g f).1
          (Ne.symm a1) b1 b2 hf)
        (fun f hf => (streamKey_component s offsetsLiteral t2 p2 g2 f).1
          (Ne.symm a1) b1 b2 hf)
    · exact eq_of_component_mem_iff s.fPartition p p2 hmem
        (fun f hf => (streamKey_component s offsetsLiteral t p g f).2.1
          (Ne.symm a2) (Ne.symm b1) c1 hf)
        (fun f hf => (streamKey_component s offsetsLiteral t2 p2 g2 f).2.1
          (Ne.symm a2) (Ne.symm b1) c1 hf)
    · exact eq_of_component_mem_iff s.fConsumerGroup g g2 hmem
        (fun f hf => (streamKey_component s offsetsLiteral t p g f).2.2
          (Ne.symm a3) (Ne.symm b2) (Ne.symm c1) hf)
        (fun f hf => (streamKey_component s offsetsLiteral t2 p2 g2 f).2.2
          (Ne.symm a3) (Ne.symm b2) (Ne.symm c1) hf)
  · rintro ⟨rfl, rfl, rfl⟩
    rfl

theorem partitionKey_eq_iff_witness :
    KeySchema.inOrder.WF ∧
    (partitionKey KeySchema.inOrder [97, 98] [] [99] =
        partitionKey KeySchema.inOrder [97] [98] [99] ↔
      (([97, 98] : Bytes) = [97] ∧ ([] : Bytes) = [98] ∧ ([99] : Bytes) = [99])) :=
  ⟨by decide, partitionKey_eq_iff KeySchema.inOrder (by decide) [97, 98] [] [99] [97] [98] [99]⟩

/-! ## The clustering key and the one-byte lookup of `last` -/

theorem encodeVarintAux_first (fuel x : Nat) (hx : 8 ≤ x) :
    ∃ c rest, encodeVarintAux fuel x = c :: rest ∧ 8 ≤ c := by
  cases fuel with
  | zero => exact ⟨x, [], rfl, hx⟩
  | succ n =>
    unfold encodeVarintAux
    split
    · exact ⟨x, [], rfl, hx⟩
    · exact ⟨x % 128 + 128, _, rfl, by omega⟩

theorem WireField.encode_first (f : WireField) (hf : 1 ≤ f.num) :
    ∃ c rest, f.encode = c :: rest ∧ 8 ≤ c := by
  cases f with
  | lengthDelimited n q =>
    have hn : 1 ≤ n := hf
    obtain ⟨c, rest, h, hc⟩ := encodeVarintAux_first (n * 8 + 2) (n * 8 + 2) (by omega)
    refine ⟨c, rest ++ (encodeVarint q.length ++ q), ?_, hc⟩
    simp [WireField.encode, encodeVarint, h]
  | varint n v =>
    have hn : 1 ≤ n := hf
    obtain ⟨c, rest, h, hc⟩ := encodeVarintAux_first (n * 8) (n * 8) (by omega)
    refine ⟨c, rest ++ encodeVarint v, ?_, hc⟩
    simp [WireField.encode, encodeVarint, h]

theorem encodeFields_first (l : List WireField) (hl : ∀ f ∈ l, 1 ≤ f.num) (hne : l ≠ []) :
    ∃ c rest, encodeFields l = c :: rest ∧ 8 ≤ c := by
  cases l with
  | nil => exact absurd rfl hne
  | cons f fs =>
    obtain ⟨c, rest, h, hc⟩ := WireField.encode_first f (hl f (by simp))
    exact ⟨c, rest ++ encodeFields fs, by simp [encodeFields, h], hc⟩

/-- A clustering key is a protobuf message, so it starts with a tag byte:
at least 8, whatever the numbering. -/
theorem generateClusterKey_first (s : KeySchema) (hs : s.WF) (o : Offset) (kind : Int) :
    ∃ c rest, generateClusterKey s o kind = c :: rest ∧ 8 ≤ c := by
  have h5 : 1 ≤ s.fOffset := hs.2 _ (by simp)
  have h6 : 1 ≤ s.fKind := hs.2 _ (by simp)
  have hperm := List.perm_insertionSort (fun a b : WireField => a.num ≤ b.num)
    (MarkedOffsetStorageKey.fields s { Offset := some o, Kind := kind })
  apply encodeFields_first
  · intro f hf
    have hf2 := hperm.mem_iff.1 hf
    simp only [MarkedOffsetStorageKey.fields, stringField, offsetField, kindField, if_true,
      List.nil_append, List.mem_append, List.mem_singleton] at hf2
    rcases hf2 with h | h
    · rw [h]; exact h5
    · split at h
      · simp at h
      · simp only [List.mem_singleton] at h
        rw [h]; exact h6
  · intro hnil
    have hlen := hperm.length_eq
    rw [hnil] at hlen
    simp [MarkedOffsetStorageKey.fields, stringField, offsetField] at hlen

theorem generateClusterKey_not_small (s : KeySchema) (hs : s.WF) (o : Offset) (kind : Int)
    (k : Nat) (hk : k < 8) : [k].isPrefixOf (generateClusterKey s o kind) = false := by
  obtain ⟨c, rest, h, hc⟩ := generateClusterKey_first s hs o kind
  rw [h]
  have : k ≠ c := by omega
  simp [List.isPrefixOf, this]

theorem lookupGreatest_none_of_filter (log : List (String × Message)) (partition : String)
    (key ck : Bytes)
    (h : ∀ e ∈ log, (e.1 == partition && (e.2.Key == key && ck.isPrefixOf e.2.ClusteringKey)) = false) :
    lookupGreatest log partition key ck = none := by
  unfold lookupGreatest
  have : log.filter (fun e =>
      e.1 == partition && (e.2.Key == key && ck.isPrefixOf e.2.ClusteringKey)) = [] := by
    rw [List.filter_eq_nil_iff]
    intro e he
    rw [h e he]
    simp
  rw [this]
  rfl

theorem lookupGreatest_small_kind (s : KeySchema) (hs : s.WF) (log : List (String × Message))
    (hlog : KeyedByMark s log) (partition : String) (key : Bytes) (k : Nat) (hk : k < 8) :
    lookupGreatest log partition key [k] = none := by
  apply lookupGreatest_none_of_filter
  intro e he
  obtain ⟨o, kind, hck⟩ := hlog e he
  rw [hck, generateClusterKey_not_small s hs o kind k hk]
  simp

theorem Broker.Produce_log (b : Broker) (w : World) (req : ProduceMessageRequest) :
    (b.Produce w req).1.log = w.log ∨
      (b.Produce w req).1.log = w.log ++ req.Messages.map (fun m => (req.Partition, m)) := by
  unfold Broker.Produce
  split
  · right; rfl
  · left; rfl

theorem Broker.Produce_accepted (b : Broker) (w : World) (req : ProduceMessageRequest)
    (h1 : (b.Produce w req).2.1.isSome = true) (h2 : (b.Produce w req).2.2 = none) :
    (b.Produce w req).1.log = w.log ++ req.Messages.map (fun m => (req.Partition, m)) := by
  rcases hr : b.produceReply req with ⟨res, err⟩
  cases res with
  | none => simp [Broker.Produce, hr] at h1
  | some r =>
    cases err with
    | none => simp [Broker.Produce, hr]
    | some e => simp [Broker.Produce, hr] at h2

theorem Broker.mark_log (b : Broker) (w w1 : World) (req : MarkRequest) (ok : Bool)
    (err : Option Err) (h : b.mark w req = some (w1, ok, err)) :
    w1.log = w.log ∨ ∃ pid value, w1.log =
      w.log ++ (markMessages b.schema req value).map (fun m => (pid, m)) := by
  cases ht : b.getTopic ConsumerOffsetTopicName with
  | none => simp [Broker.mark, ht] at h
  | some topic =>
    cases hl : b.getPartitionLeader ConsumerOffsetTopicName (topic.ChoosePartitionForKey
        (partitionKey b.schema req.Topic req.Partition req.ConsumerGroup)) with
    | none =>
      simp only [Broker.mark, ht, hl, Option.some.injEq, Prod.mk.injEq] at h
      left; rw [← h.1]
    | some n =>
      by_cases hn : n.Name = b.Name
      · cases hv : b.marshalState (stateOrEmpty req.State) with
        | error e =>
          simp only [Broker.mark, ht, hl, hn, hv, ne_eq, not_true_eq_false, if_false,
            Option.some.injEq, Prod.mk.injEq] at h
          left; rw [← h.1]
        | ok value =>
          rw [Broker.mark_local b w topic n req value ht hl hn hv] at h
          simp only [Option.some.injEq, Prod.mk.injEq] at h
          rw [← h.1]
          rcases Broker.Produce_log b w
            { Topic := ConsumerOffsetTopicName
              Partition := topic.ChoosePartitionForKey
                (partitionKey b.schema req.Topic req.Partition req.ConsumerGroup)
              Messages := markMessages b.schema req value } with hlog | hlog
          · left; exact hlog
          · right; exact ⟨_, value, hlog⟩
      · simp only [Broker.mark, ht, hl, hn, ne_eq, not_false_eq_true, if_true] at h
        cases hm : n.Mark req with
        | error e =>
          simp only [hm, Option.some.injEq, Prod.mk.injEq] at h
          left; rw [← h.1]
        | ok res =>
          simp only [hm, Option.some.injEq, Prod.mk.injEq] at h
          left; rw [← h.1]

theorem Broker.mark_keyed (b : Broker) (w w1 : World) (req : MarkRequest) (ok : Bool)
    (err : Option Err) (h : b.mark w req = some (w1, ok, err))
    (hw : KeyedByMark b.schema w.log) : KeyedByMark b.schema w1.log := by
  rcases Broker.mark_log b w w1 req ok err h with hlog | ⟨pid, value, hlog⟩
  · rw [hlog]; exact hw
  · rw [hlog]
    intro e he
    rw [List.mem_append] at he
    rcases he with he | he
    · exact hw e he
    · simp only [markMessages, List.map_map, List.mem_map, Function.comp] at he
      obtain ⟨o, _, ho⟩ := he
      exact ⟨o, (stateOrEmpty req.State).Kind, by rw [← ho]⟩

theorem Broker.markAll_keyed (b : Broker) : ∀ (reqs : List MarkRequest) (w w1 : World)
    (rs : List (Bool × Option Err)), b.markAll w reqs = some (w1, rs) →
    KeyedByMark b.schema w.log → KeyedByMark b.schema w1.log := by
  intro reqs
  induction reqs with
  | nil =>
    intro w w1 rs h hw
    simp only [Broker.markAll, Option.some.injEq, Prod.mk.injEq] at h
    rw [← h.1]; exact hw
  | cons req reqs ih =>
    intro w w1 rs h hw
    simp only [Broker.markAll] at h
    split at h
    · simp at h
    · rename_i w2 ok err hm
      split at h
      · simp at h
      · rename_i w3 rs2 hall
        simp only [Option.some.injEq, Prod.mk.injEq] at h
        rw [← h.1]
        exact ih w2 w3 rs2 hall (Broker.mark_keyed b w w2 req ok err hm hw)

theorem Broker.lastOffset_small_kind (b : Broker) (w : World) (topic : Topic) (n : Node)
    (t p g : Bytes) (kind : Int)
    (hs : b.schema.WF)
    (ht : b.getTopic ConsumerOffsetTopicName = some topic)
    (hl : b.getPartitionLeader ConsumerOffsetTopicName
      (topic.ChoosePartitionForKey (partitionKey b.schema t p g)) = some n)
    (hn : n.Name = b.Name)
    (hr : b.readFault (topic.ChoosePartitionForKey (partitionKey b.schema t p g))
      (partitionKey b.schema t p g) [byteOfKind kind] = none)
    (hk : byteOfKind kind < 8)
    (hw : KeyedByMark b.schema w.log) :
    b.lastOffset w t p g kind =
      some ({ w with trace := w.trace ++ [Effect.getMessage
          (topic.ChoosePartitionForKey (partitionKey b.schema t p g)) Nil
          (partitionKey b.schema t p g) [byteOfKind kind]] }, Nil, none) := by
  rw [Broker.lastOffset_local b w topic n t p g kind ht hl hn]
  simp [Broker.last, Broker.GetMessage, hr,
    lookupGreatest_small_kind b.schema hs w.log hw _ _ _ hk]

theorem keyedByMark_nil (s : KeySchema) : KeyedByMark s [] := by
  intro e he
  simp at he

/-! ## What `lastOffset` returns after marks -/

/-- C1, as the code behaves: on a broker that leads the stream's partition,
starting from an empty offset log, after any sequence of `mark` calls
(successful marks of the kind on the stream included) `lastOffset` for a kind
whose byte is below 8 reads the storage once and returns `Nil` with no error,
not the maximum marked offset: the clustering keys `mark` stores are protobuf
messages, which never start with such a byte, so the one-byte lookup of `last`
matches none of them. -/
theorem lastOffset_after_marks_is_Nil (b : Broker) (w w1 : World) (topic : Topic) (n : Node)
    (reqs : List MarkRequest) (rs : List (Bool × Option Err)) (t p g : Bytes) (kind : Int)
    (hs : b.schema.WF)
    (ht : b.getTopic ConsumerOffsetTopicName = some topic)
    (hl : b.getPartitionLeader ConsumerOffsetTopicName
      (topic.ChoosePartitionForKey (partitionKey b.schema t p g)) = some n)
    (hn : n.Name = b.Name)
    (hr : b.readFault (topic.ChoosePartitionForKey (partitionKey b.schema t p g))
      (partitionKey b.schema t p g) [byteOfKind kind] = none)
    (hk : byteOfKind kind < 8)
    (hw : w.log = [])
    (hm : b.markAll w reqs = some (w1, rs)) :
    b.lastOffset w1 t p g kind =
      some ({ w1 with trace := w1.trace ++ [Effect.getMessage
          (topic.ChoosePartitionForKey (partitionKey b.schema t p g)) Nil
          (partitionKey b.schema t p g) [byteOfKind kind]] }, Nil, none) := by
  apply Broker.lastOffset_small_kind b w1 topic n t p g kind hs ht hl hn hr hk
  apply Broker.markAll_keyed b reqs w w1 rs hm
  rw [hw]
  exact keyedByMark_nil b.schema

theorem lastOffset_after_marks_is_Nil_witness :
    (demoBroker (some selfNode)).markAll emptyWorld [demoMark [7] 2, demoMark [9] 2] =
      some (worldAfter (demoBroker (some selfNode)) [demoMark [7] 2, demoMark [9] 2],
        [(true, none), (true, none)]) ∧
    ((demoBroker (some selfNode)).lastOffset
        (worldAfter (demoBroker (some selfNode)) [demoMark [7] 2, demoMark [9] 2])
        [112, 97, 121] [48] [103, 49] 2).map (fun r => r.2) = some (Nil, none) :=
  ⟨by decide, by
    rw [lastOffset_after_marks_is_Nil (demoBroker (some selfNode)) emptyWorld
      (worldAfter (demoBroker (some selfNode)) [demoMark [7] 2, demoMark [9] 2]) demoTopic
      selfNode [demoMark [7] 2, demoMark [9] 2] [(true, none), (true, none)]
      [112, 97, 121] [48] [103, 49] 2 (by decide) rfl rfl rfl rfl (by decide) rfl (by decide)]
    rfl⟩

/-- C2, as the code behaves: on a broker that leads the stream's partition,
starting from an empty offset log, after a successful mark of `o1` with one
kind and a later successful mark of `o2` with another kind, `lastOffset` for
the first kind, when its byte is below 8, returns `Nil` with no error and not
`o1`, for the reason given at C1. -/
theorem lastOffset_first_kind_after_second (b : Broker) (w w1 w2 : World) (topic : Topic)
    (n : Node) (t p g : Bytes) (o1 o2 : Offset) (k1 k2 : Int)
    (hs : b.schema.WF)
    (ht : b.getTopic ConsumerOffsetTopicName = some topic)
    (hl : b.getPartitionLeader ConsumerOffsetTopicName
      (topic.ChoosePartitionForKey (partitionKey b.schema t p g)) = some n)
    (hn : n.Name = b.Name)
    (hr : b.readFault (topic.ChoosePartitionForKey (partitionKey b.schema t p g))
      (partitionKey b.schema t p g) [byteOfKind k1] = none)
    (hk : byteOfKind k1 < 8)
    (hw : w.log = [])
    (h1 : b.mark w ⟨t, p, g, [o1], some { Kind := k1 }⟩ = some (w1, true, none))
    (h2 : b.mark w1 ⟨t, p, g, [o2], some { Kind := k2 }⟩ = some (w2, true, none)) :
    b.lastOffset w2 t p g k1 =
      some ({ w2 with trace := w2.trace ++ [Effect.getMessage
          (topic.ChoosePartitionForKey (partitionKey b.schema t p g)) Nil
          (partitionKey b.schema t p g) [byteOfKind k1]] }, Nil, none) := by
  apply Broker.lastOffset_small_kind b w2 topic n t p g k1 hs ht hl hn hr hk
  apply Broker.mark_keyed b w1 w2 _ _ _ h2
  apply Broker.mark_keyed b w w1 _ _ _ h1
  rw [hw]
  exact keyedByMark_nil b.schema

theorem lastOffset_first_kind_after_second_witness :
    (demoBroker (some selfNode)).mark emptyWorld ⟨[112, 97, 121], [48], [103, 49], [7],
        some { Kind := 2 }⟩ =
      some (worldAfter (demoBroker (some selfNode)) [demoMark [7] 2], true, none) ∧
    (demoBroker (some selfNode)).mark (worldAfter (demoBroker (some selfNode)) [demoMark [7] 2])
        ⟨[112, 97, 121], [48], [103, 49], [9], some { Kind := 3 }⟩ =
      some (worldAfter (demoBroker (some selfNode)) [demoMark [7] 2, demoMark [9] 3],
        true, none) ∧
    ((demoBroker (some selfNode)).lastOffset
        (worldAfter (demoBroker (some selfNode)) [demoMark [7] 2, demoMark [9] 3])
        [112, 97, 121] [48] [103, 49] 2).map (fun r => r.2) = some (Nil, none) :=
  ⟨by decide, by decide, by
    rw [lastOffset_first_kind_after_second (demoBroker (some selfNode)) emptyWorld
      (worldAfter (demoBroker (some selfNode)) [demoMark [7] 2])
      (worldAfter (demoBroker (some selfNode)) [demoMark [7] 2, demoMark [9] 3]) demoTopic
      selfNode [112, 97, 121] [48] [103, 49] 7 9 2 3 (by decide) rfl rfl rfl rfl (by decide)
      rfl (by decide) (by decide)]
    rfl⟩

/-! ## Reading one marked cell back -/

theorem lookupGreatest_none_of_key (log : List (String × Message)) (partition : String)
    (key ck : Bytes) (h : ∀ e ∈ log, e.2.Key ≠ key) :
    lookupGreatest log partition key ck = none := by
  apply lookupGreatest_none_of_filter
  intro e he
  have := h e he
  simp [this]

theorem Broker.GetMarkStateMessage_local_found (b : Broker) (w wa : World) (topic : Topic)
    (n : Node) (t p g : Bytes) (o : Offset) (m : Message)
    (ht : b.getTopic ConsumerOffsetTopicName = some topic)
    (hl : b.getPartitionLeader ConsumerOffsetTopicName
      (topic.ChoosePartitionForKey (partitionKey b.schema t p g)) = some n)
    (hn : n.Name = b.Name)
    (h : b.GetMarkStateMessage w ⟨t, p, g, o⟩ = some (wa, some m, none)) :
    lookupGreatest w.log (topic.ChoosePartitionForKey (partitionKey b.schema t p g))
      (b.generatePrefixConsumerOffsetKey t p g o) [] = some m := by
  simp only [Broker.GetMarkStateMessage, ht, hl, hn, ne_eq, not_true_eq_false, if_false,
    Broker.GetMessage] at h
  cases hr : b.readFault (topic.ChoosePartitionForKey (partitionKey b.schema t p g))
      (b.generatePrefixConsumerOffsetKey t p g o) [] with
  | some e => simp [hr] at h
  | none =>
    cases hlk : lookupGreatest w.log (topic.ChoosePartitionForKey (partitionKey b.schema t p g))
        (b.generatePrefixConsumerOffsetKey t p g o) [] with
    | none => simp [hr, hlk] at h
    | some m2 =>
      simp only [hr, hlk, Option.some.injEq, Prod.mk.injEq, and_true] at h
      rw [h.2]

theorem Broker.mark_local_accepted_log (b : Broker) (w w1 : World) (topic : Topic) (n : Node)
    (req : MarkRequest) (value : Bytes)
    (ht : b.getTopic ConsumerOffsetTopicName = some topic)
    (hl : b.getPartitionLeader ConsumerOffsetTopicName
      (topic.ChoosePartitionForKey
        (partitionKey b.schema req.Topic req.Partition req.ConsumerGroup)) = some n)
    (hn : n.Name = b.Name)
    (hv : b.marshalState (stateOrEmpty req.State) = .ok value)
    (hm : b.mark w req = some (w1, true, none)) :
    w1.log = w.log ++ (markMessages b.schema req value).map (fun m =>
        (topic.ChoosePartitionForKey
          (partitionKey b.schema req.Topic req.Partition req.ConsumerGroup), m)) ∧
    w1.trace = w.trace ++ [Effect.produce
      { Topic := ConsumerOffsetTopicName
        Partition := topic.ChoosePartitionForKey
          (partitionKey b.schema req.Topic req.Partition req.ConsumerGroup)
        Messages := markMessages b.schema req value }] := by
  rw [Broker.mark_local b w topic n req value ht hl hn hv] at hm
  simp only [Option.some.injEq, Prod.mk.injEq] at hm
  obtain ⟨h1, h2, h3⟩ := hm
  rw [← h1]
  exact ⟨Broker.Produce_accepted b w _ h2 h3, Broker.Produce_trace b w _⟩

/-- C3, as the code behaves: on a broker that leads the stream's partition,
starting from an empty offset log, after one successful `mark` of two
different offsets of a stream, `GetMarkStateMessage` cannot return for each of
the two offsets a message with that offset, whatever the key helper
`generatePrefixConsumerOffsetKey` computes: the lookup is by that key as the
message key with no clustering key, while `mark` stored both messages under
the stream key, so a lookup either finds nothing or finds the same message
for both offsets. -/
theorem getMarkStateMessage_misses_a_mark (b : Broker) (w w1 : World) (topic : Topic)
    (n : Node) (t p g : Bytes) (o1 o2 : Offset) (st : Option MarkState) (value : Bytes)
    (ht : b.getTopic ConsumerOffsetTopicName = some topic)
    (hl : b.getPartitionLeader ConsumerOffsetTopicName
      (topic.ChoosePartitionForKey (partitionKey b.schema t p g)) = some n)
    (hn : n.Name = b.Name)
    (hv : b.marshalState (stateOrEmpty st) = .ok value)
    (hw : w.log = [])
    (ho : o1 ≠ o2)
    (hm : b.mark w ⟨t, p, g, [o1, o2], st⟩ = some (w1, true, none)) :
    ¬ ∃ wa wb ma mb,
      b.GetMarkStateMessage w1 ⟨t, p, g, o1⟩ = some (wa, some ma, none) ∧ ma.Offset = o1 ∧
      b.GetMarkStateMessage w1 ⟨t, p, g, o2⟩ = some (wb, some mb, none) ∧ mb.Offset = o2 := by
  rintro ⟨wa, wb, ma, mb, ha, hao, hb, hbo⟩
  have hlog := (Broker.mark_local_accepted_log b w w1 topic n ⟨t, p, g, [o1, o2], st⟩ value
    ht hl hn hv hm).1
  rw [hw] at hlog
  have hkeys : ∀ e ∈ w1.log, e.2.Key = partitionKey b.schema t p g := by
    intro e he
    rw [hlog] at he
    simp only [markMessages, List.nil_append, List.map_cons, List.map_nil, List.mem_cons,
      List.mem_singleton, List.not_mem_nil, or_false] at he
    rcases he with he | he <;> rw [he]
  have hA := Broker.GetMarkStateMessage_local_found b w1 wa topic n t p g o1 ma ht hl hn ha
  have hB := Broker.GetMarkStateMessage_local_found b w1 wb topic n t p g o2 mb ht hl hn hb
  by_cases hka : b.generatePrefixConsumerOffsetKey t p g o1 = partitionKey b.schema t p g
  · by_cases hkb : b.generatePrefixConsumerOffsetKey t p g o2 = partitionKey b.schema t p g
    · rw [hka] at hA
      rw [hkb, hA] at hB
      simp only [Option.some.injEq] at hB
      apply ho
      rw [← hao, ← hbo, hB]
    · rw [lookupGreatest_none_of_key w1.log _ _ _
        (fun e he => by rw [hkeys e he]; exact Ne.symm hkb)] at hB
      simp at hB
  · rw [lookupGreatest_none_of_key w1.log _ _ _
      (fun e he => by rw [hkeys e he]; exact Ne.symm hka)] at hA
    simp at hA

theorem getMarkStateMessage_misses_a_mark_witness :
    (demoBroker (some selfNode)).mark emptyWorld ⟨[112, 97, 121], [48], [103, 49], [7, 9],
        some { Kind := 2 }⟩ =
      some (worldAfter (demoBroker (some selfNode)) [demoMark [7, 9] 2], true, none) ∧
    ¬ ∃ wa wb ma mb,
      (demoBroker (some selfNode)).GetMarkStateMessage
          (worldAfter (demoBroker (some selfNode)) [demoMark [7, 9] 2])
          ⟨[112, 97, 121], [48], [103, 49], 7⟩ = some (wa, some ma, none) ∧ ma.Offset = 7 ∧
      (demoBroker (some selfNode)).GetMarkStateMessage
          (worldAfter (demoBroker (some selfNode)) [demoMark [7, 9] 2])
          ⟨[112, 97, 121], [48], [103, 49], 9⟩ = some (wb, some mb, none) ∧ mb.Offset = 9 :=
  ⟨by decide,
    getMarkStateMessage_misses_a_mark (demoBroker (some selfNode)) emptyWorld
      (worldAfter (demoBroker (some selfNode)) [demoMark [7, 9] 2]) demoTopic selfNode
      [112, 97, 121] [48] [103, 49] 7 9 (some { Kind := 2 }) [8, 2] rfl rfl rfl rfl rfl
      (by decide) (by decide)⟩

/-- With a helper that answers the stream key, after marking offsets 7 and 9
the read for offset 7 returns the message of offset 9, and the read for the
unmarked offset 5 returns it too instead of `NotFound`. -/
theorem getMarkStateMessage_returns_greatest :
    ((demoBroker (some selfNode)).GetMarkStateMessage
        (worldAfter (demoBroker (some selfNode)) [demoMark [7, 9] 2])
        ⟨[112, 97, 121], [48], [103, 49], 7⟩).map (fun r => (r.2.1.map Message.Offset, r.2.2)) =
      some (some 9, none) ∧
    ((demoBroker (some selfNode)).GetMarkStateMessage
        (worldAfter (demoBroker (some selfNode)) [demoMark [7, 9] 2])
        ⟨[112, 97, 121], [48], [103, 49], 5⟩).map (fun r => (r.2.1.map Message.Offset, r.2.2)) =
      some (some 9, none) := by
  decide

/-! ## `isAcknoweldged` after an acknowledging mark -/

/-- C4: after a successful local `mark` of kind Acknowledged whose offsets
include `o`, the log holds the message of `o` under the partition, message key
and clustering key of the produce, and `isAcknoweldged` for the same stream and
`o` probes exactly that partition, message key and clustering key, once, and
returns true with no error. -/
theorem isAcknoweldged_after_mark (b : Broker) (w w1 : World) (topic : Topic) (n : Node)
    (req : MarkRequest) (value : Bytes) (o : Offset)
    (ht : b.getTopic ConsumerOffsetTopicName = some topic)
    (hl : b.getPartitionLeader ConsumerOffsetTopicName
      (topic.ChoosePartitionForKey
        (partitionKey b.schema req.Topic req.Partition req.ConsumerGroup)) = some n)
    (hn : n.Name = b.Name)
    (hv : b.marshalState (stateOrEmpty req.State) = .ok value)
    (hk : (stateOrEmpty req.State).Kind = b.MarkKind_Acknowledged)
    (ho : o ∈ req.Offsets)
    (hm : b.mark w req = some (w1, true, none))
    (hr : b.readFault
      (topic.ChoosePartitionForKey
        (partitionKey b.schema req.Topic req.Partition req.ConsumerGroup))
      (partitionKey b.schema req.Topic req.Partition req.ConsumerGroup)
      (generateClusterKey b.schema o b.MarkKind_Acknowledged) = none) :
    ∃ pid m batch,
      w1.trace = w.trace ++ [Effect.produce
        { Topic := ConsumerOffsetTopicName, Partition := pid, Messages := batch }] ∧
      m ∈ batch ∧ m.Offset = o ∧ m.Value = value ∧ (pid, m) ∈ w1.log ∧
      b.isAcknoweldged w1 req.Topic req.Partition req.ConsumerGroup o =
        ({ w1 with trace := w1.trace ++
            [Effect.hasKey ConsumerOffsetTopicName pid m.Key m.ClusteringKey] }, true, none) := by
  obtain ⟨hlog, htrace⟩ :=
    Broker.mark_local_accepted_log b w w1 topic n req value ht hl hn hv hm
  have hmem : ({ Offset := o
                 Key := partitionKey b.schema req.Topic req.Partition req.ConsumerGroup
                 ClusteringKey := generateClusterKey b.schema o b.MarkKind_Acknowledged
                 Value := value } : Message) ∈ markMessages b.schema req value := by
    simp only [markMessages, List.mem_map]
    exact ⟨o, ho, by rw [hk]⟩
  refine ⟨_, _, _, htrace, hmem, rfl, rfl, ?_, ?_⟩
  · rw [hlog]
    apply List.mem_append_right
    exact List.mem_map.2 ⟨_, hmem, rfl⟩
  · have hany : w1.log.any (fun e =>
        e.1 == topic.ChoosePartitionForKey
            (partitionKey b.schema req.Topic req.Partition req.ConsumerGroup) &&
          (e.2.Key == partitionKey b.schema req.Topic req.Partition req.ConsumerGroup &&
            e.2.ClusteringKey == generateClusterKey b.schema o b.MarkKind_Acknowledged)) =
        true := by
      rw [List.any_eq_true]
      refine ⟨(topic.ChoosePartitionForKey
          (partitionKey b.schema req.Topic req.Partition req.ConsumerGroup),
        ({ Offset := o
           Key := partitionKey b.schema req.Topic req.Partition req.ConsumerGroup
           ClusteringKey := generateClusterKey b.schema o b.MarkKind_Acknowledged
           Value := value } : Message)), ?_, ?_⟩
      · rw [hlog]
        apply List.mem_append_right
        exact List.mem_map.2 ⟨_, hmem, rfl⟩
      · simp
    simp [Broker.isAcknoweldged, ht, Broker.hasKeyInPartition, hr, hany]

theorem isAcknoweldged_after_mark_witness :
    (demoBroker (some selfNode)).mark emptyWorld (demoMark [7, 9] 2) =
      some (worldAfter (demoBroker (some selfNode)) [demoMark [7, 9] 2], true, none) ∧
    ∃ pid m batch,
      (worldAfter (demoBroker (some selfNode)) [demoMark [7, 9] 2]).trace =
        emptyWorld.trace ++ [Effect.produce
          { Topic := ConsumerOffsetTopicName, Partition := pid, Messages := batch }] ∧
      m ∈ batch ∧ m.Offset = 9 ∧ m.Value = [8, 2] ∧
      (pid, m) ∈ (worldAfter (demoBroker (some selfNode)) [demoMark [7, 9] 2]).log ∧
      (demoBroker (some selfNode)).isAcknoweldged
          (worldAfter (demoBroker (some selfNode)) [demoMark [7, 9] 2])
          (demoMark [7, 9] 2).Topic (demoMark [7, 9] 2).Partition
          (demoMark [7, 9] 2).ConsumerGroup 9 =
        ({ worldAfter (demoBroker (some selfNode)) [demoMark [7, 9] 2] with
            trace := (worldAfter (demoBroker (some selfNode)) [demoMark [7, 9] 2]).trace ++
              [Effect.hasKey ConsumerOffsetTopicName pid m.Key m.ClusteringKey] },
          true, none) :=
  ⟨by decide,
    isAcknoweldged_after_mark (demoBroker (some selfNode)) emptyWorld
      (worldAfter (demoBroker (some selfNode)) [demoMark [7, 9] 2]) demoTopic selfNode
      (demoMark [7, 9] 2) [8, 2] 9 rfl rfl rfl rfl rfl (by decide) (by decide) rfl⟩

end Sandglass
